import Mathlib

/-!
Shallow embedding of the Spectrometer repository core
(src/calibration/calibration_model.py, src/calibration/peak_detector.py,
src/core/spectrum_sampler.py, src/core/line_detector.py,
src/utils/color_utils.py), together with theorems settling the frozen
claims about it.

Conventions of the embedding:
* Python floats are modelled as exact rationals where the code only uses
  field operations, and as real numbers where the code takes square roots
  or non-integral powers.  Division by zero in the rational model yields 0
  (the numpy code yields NaN or inf there); each theorem that touches such
  a point notes why the conclusion is insensitive to this difference.
* A Python function that can raise is modelled as an Option-valued
  function returning none at exactly its raise sites.
* Mutating methods of CalibrationModel are modelled as state-passing
  functions returning the new state (and the returned value, when any).
-/

namespace Spectrometer

/-! ## Calibration model (src/calibration/calibration_model.py) -/

/-- CalibrationPoint dataclass: a single calibration point. -/
structure CalibrationPoint where
  pixel : ℚ
  wavelength : ℚ
  label : Option String
deriving DecidableEq

/-- Fit-quality record stored by CalibrationModel._calculate_fit_quality.
The rmse field is a real number because the source takes a square root. -/
structure FitQuality where
  r_squared : ℚ
  rmse : ℝ
  max_error : ℚ
  residuals : List ℚ

/-- State of CalibrationModel: polynomial order, point collection,
optional fitted coefficients (highest degree first, as numpy returns
them), optional fit-quality record. -/
structure CalibrationModel where
  polynomial_order : ℕ
  points : List CalibrationPoint
  coefficients : Option (List ℚ)
  fit_quality : Option FitQuality

/-- numpy.polyval: evaluate a polynomial given coefficients ordered from
the highest degree down, by Horner evaluation. -/
def polyval (coeffs : List ℚ) (x : ℚ) : ℚ :=
  coeffs.foldl (fun acc c => acc * x + c) 0

/-- Least-squares straight-line fit, the degree-1 case of numpy.polyfit:
the unique solution of the degree-1 normal equations by the Cramer rule,
returned highest degree first. -/
def polyfit1 (pts : List (ℚ × ℚ)) : List ℚ :=
  let n : ℚ := pts.length
  let sx := (pts.map Prod.fst).sum
  let sy := (pts.map Prod.snd).sum
  let sxx := (pts.map fun p => p.1 * p.1).sum
  let sxy := (pts.map fun p => p.1 * p.2).sum
  let d := n * sxx - sx * sx
  [(n * sxy - sx * sy) / d, (sxx * sy - sx * sxy) / d]

/-- Helper for Gaussian elimination: pick the first row with a nonzero
leading entry, returning it together with the remaining rows. -/
def pickPivot : List (List ℚ) → Option (List ℚ × List (List ℚ))
  | [] => none
  | r :: rest =>
    if r.headD 0 ≠ 0 then some (r, rest)
    else
      match pickPivot rest with
      | some (p, others) => some (p, r :: others)
      | none => none

/-- Helper for Gaussian elimination: eliminate the leading column of a row
using the pivot row. -/
def reduceRow (piv row : List ℚ) : List ℚ :=
  match piv, row with
  | p :: ps, r :: rs => List.zipWith (fun a b => b - r / p * a) ps rs
  | _, row => row.tail

/-- Helper for Gaussian elimination: back-substitute the solution of the
reduced system into the pivot row. -/
def backSub (piv sub : List ℚ) : List ℚ :=
  match piv with
  | p :: rest =>
    let rhs := rest.getLastD 0
    let s := (List.zipWith (fun a b => a * b) rest sub).sum
    (rhs - s) / p :: sub
  | [] => sub

/-- Gaussian elimination on an augmented matrix, fuelled by the column
count (each recursive step consumes one column). -/
def gaussAux : ℕ → List (List ℚ) → List ℚ
  | 0, _ => []
  | _, [] => []
  | fuel + 1, r :: rows =>
    if r.length ≤ 1 then []
    else
      match pickPivot (r :: rows) with
      | none => 0 :: gaussAux fuel ((r :: rows).map List.tail)
      | some (piv, rest) => backSub piv (gaussAux fuel (rest.map (reduceRow piv)))

/-- Solve a linear system given as an augmented matrix. -/
def gaussSolve (rows : List (List ℚ)) : List ℚ :=
  gaussAux (rows.headD []).length rows

/-- Normal equations of the least-squares polynomial fit of the given
degree, with unknowns ordered from the highest degree down. -/
def normalEquations (pts : List (ℚ × ℚ)) (order : ℕ) : List (List ℚ) :=
  (List.range (order + 1)).map fun j =>
    ((List.range (order + 1)).map fun k =>
      (pts.map fun p => p.1 ^ (2 * order - j - k)).sum)
    ++ [(pts.map fun p => p.2 * p.1 ^ (order - j)).sum]

/-- numpy.polyfit: least-squares polynomial fit of the given degree over
exact rationals, coefficients highest degree first.  The degree-1 case is
written in its standard closed form (the Cramer solution of its normal
equations); other degrees solve the normal equations by elimination.  No
claim examines the coefficient values produced at degree other than 1. -/
def polyfit (pts : List (ℚ × ℚ)) (order : ℕ) : List ℚ :=
  if order = 1 then polyfit1 pts else gaussSolve (normalEquations pts order)

/-- CalibrationModel.add_point: append the point and invalidate the fit. -/
def add_point (m : CalibrationModel) (pixel wavelength : ℚ)
    (label : Option String) : CalibrationModel :=
  { m with
    points := m.points ++ [⟨pixel, wavelength, label⟩]
    coefficients := none
    fit_quality := none }

/-- CalibrationModel.remove_point: remove the point at the given index and
invalidate the fit when the index is in range, otherwise do nothing.  The
index is an integer exactly as in the source, where the guard is the
chained comparison 0 <= index < len(self.points). -/
def remove_point (m : CalibrationModel) (index : ℤ) : CalibrationModel :=
  if 0 ≤ index ∧ index < (m.points.length : ℤ) then
    { m with
      points := m.points.eraseIdx index.toNat
      coefficients := none
      fit_quality := none }
  else m

/-- CalibrationModel.clear_points: drop all points and invalidate the fit. -/
def clear_points (m : CalibrationModel) : CalibrationModel :=
  { m with points := [], coefficients := none, fit_quality := none }

/-- CalibrationModel._calculate_fit_quality: R squared with the 1e-10
regularizer, root-mean-square error, maximum absolute error, and the raw
residual list. -/
noncomputable def calcFitQuality (coeffs : List ℚ) (pixels wavelengths : List ℚ) :
    FitQuality :=
  let pred := pixels.map (polyval coeffs)
  let residuals := List.zipWith (fun w p => w - p) wavelengths pred
  let ssRes := (residuals.map fun r => r ^ 2).sum
  let meanW := wavelengths.sum / wavelengths.length
  let ssTot := (wavelengths.map fun w => (w - meanW) ^ 2).sum
  { r_squared := 1 - ssRes / (ssTot + 1 / 10 ^ 10)
    rmse := Real.sqrt (((residuals.map fun r => (r : ℝ) ^ 2).sum) / residuals.length)
    max_error := (residuals.map fun r => |r|).foldl max 0
    residuals := residuals }

/-- CalibrationModel.fit: fail (returning False, state untouched) with
fewer than 2 points; otherwise adopt the requested order when one is
given, downgrade the order to min(order, count - 1) when the point count
is below order + 1, run the least-squares fit, store coefficients and
quality, and return True. -/
noncomputable def fit (m : CalibrationModel) (order : Option ℕ) :
    Bool × CalibrationModel :=
  if m.points.length < 2 then (false, m)
  else
    let m1 : CalibrationModel :=
      match order with
      | some o => { m with polynomial_order := o }
      | none => m
    let m2 : CalibrationModel :=
      if m1.points.length < m1.polynomial_order + 1 then
        { m1 with polynomial_order := min m1.polynomial_order (m1.points.length - 1) }
      else m1
    let pixels := m2.points.map CalibrationPoint.pixel
    let wavelengths := m2.points.map CalibrationPoint.wavelength
    let coeffs := polyfit (pixels.zip wavelengths) m2.polynomial_order
    (true,
      { m2 with
        coefficients := some coeffs
        fit_quality := some (calcFitQuality coeffs pixels wavelengths) })

/-- CalibrationModel.pixel_to_wavelength: polynomial evaluation at each
input; none models the ValueError raised on an unfitted model. -/
def pixel_to_wavelength (m : CalibrationModel) (pixels : List ℚ) :
    Option (List ℚ) :=
  match m.coefficients with
  | none => none
  | some cs => some (pixels.map (polyval cs))

/-- CalibrationModel.wavelength_to_pixel: none models the ValueError
raised on an unfitted model; for polynomial order 1 the analytic inverse
(wavelength - b) / a, after destructuring the coefficient list into
exactly two entries (the source destructuring raises otherwise).  The
branch for order at least 2 calls the scipy numerical root finder and is
not modelled; no claim concerns it. -/
def wavelength_to_pixel (m : CalibrationModel) (wavelength : ℚ) : Option ℚ :=
  match m.coefficients with
  | none => none
  | some cs =>
    if m.polynomial_order = 1 then
      match cs with
      | [a, b] => some ((wavelength - b) / a)
      | _ => none
    else none

/-- CalibrationModel.is_fitted: whether coefficients are present. -/
def is_fitted (m : CalibrationModel) : Bool :=
  m.coefficients.isSome

/-- Composition pixel_to_wavelength then wavelength_to_pixel at a single
pixel position, the round trip of claim C3. -/
def roundTrip (m : CalibrationModel) (x : ℚ) : Option ℚ :=
  match pixel_to_wavelength m [x] with
  | some [w] => wavelength_to_pixel m w
  | _ => none

/-- Operations on a CalibrationModel, for stating trace invariants. -/
inductive CalOp
  | addPt (pixel wavelength : ℚ) (label : Option String)
  | removePt (index : ℤ)
  | clearPts
  | fitPoly (order : Option ℕ)

/-- Apply one operation to a model state, discarding the fit return flag. -/
noncomputable def applyOp (m : CalibrationModel) : CalOp → CalibrationModel
  | .addPt p w l => add_point m p w l
  | .removePt i => remove_point m i
  | .clearPts => clear_points m
  | .fitPoly o => (fit m o).2

/-- Run a list of operations from a starting state. -/
noncomputable def runOps (m : CalibrationModel) (ops : List CalOp) :
    CalibrationModel :=
  ops.foldl applyOp m

/-- Whether an operation, applied in the given state, is not a successful
fit: true for every mutation, and for a fit attempt exactly when fit
returns False there. -/
noncomputable def opFitOk (m : CalibrationModel) : CalOp → Bool
  | .fitPoly o => !(fit m o).1
  | _ => true

/-- Whether, stepping a list of operations from the given state, every fit
attempt along the trace returns False. -/
noncomputable def noSuccessfulFit (m : CalibrationModel) : List CalOp → Bool
  | [] => true
  | op :: rest => opFitOk m op && noSuccessfulFit (applyOp m op) rest

/-- Whether an operation is a successful point mutation in the given
state: add_point and clear_points always, remove_point exactly when its
index is in range. -/
def isPointMutation (m : CalibrationModel) : CalOp → Bool
  | .addPt _ _ _ => true
  | .removePt i => decide (0 ≤ i ∧ i < (m.points.length : ℤ))
  | .clearPts => true
  | .fitPoly _ => false

/-! ## Spectrum sampler (src/core/spectrum_sampler.py, src/utils/color_utils.py)

Images are modelled in their floating form (components already in [0, 1];
the uint8-to-float conversion branch of bgr_to_linear_rgb is a pointwise
rescaling outside every claim).  Pixel grids are total functions from
integer coordinates, carrying the array bounds used by the edge-clamping
of out-of-range samples. -/

/-- Three-channel image: pixel values are BGR triples, as OpenCV hands
them to the sampler. -/
structure ColorImage where
  height : ℕ
  width : ℕ
  pix : ℤ → ℤ → ℝ × ℝ × ℝ

/-- Single-channel intensity image. -/
structure GrayImage where
  height : ℕ
  width : ℕ
  pix : ℤ → ℤ → ℝ

/-- srgb_to_linear of color_utils: the two-branch gamma law. -/
noncomputable def srgb_to_linear (v : ℝ) : ℝ :=
  if v ≤ 0.04045 then v / 12.92 else ((v + 0.055) / 1.055) ^ (2.4 : ℝ)

/-- bgr_to_linear_rgb of color_utils on a float image: flip the channel
order from BGR to RGB and apply the gamma law elementwise. -/
noncomputable def bgr_to_linear_rgb (image : ColorImage) : ColorImage :=
  { image with
    pix := fun y x =>
      let c := image.pix y x
      (srgb_to_linear c.2.2, srgb_to_linear c.2.1, srgb_to_linear c.1) }

/-- rgb_to_intensity of color_utils: BT.709 weighted sum of the (linear)
RGB channels. -/
noncomputable def rgb_to_intensity (image : ColorImage) : GrayImage :=
  { height := image.height
    width := image.width
    pix := fun y x =>
      let c := image.pix y x
      0.2126 * c.1 + 0.7152 * c.2.1 + 0.0722 * c.2.2 }

/-- Clamp an index into the range [0, n - 1], the edge extension used by
sampling with the nearest mode. -/
def clampIdx (i : ℤ) (n : ℕ) : ℤ :=
  max 0 (min i ((n : ℤ) - 1))

/-- Read a gray image at integer coordinates with edge clamping. -/
noncomputable def grayAt (g : GrayImage) (y x : ℤ) : ℝ :=
  g.pix (clampIdx y g.height) (clampIdx x g.width)

/-- scipy.ndimage.map_coordinates with order 1 and mode nearest at one
coordinate pair: bilinear interpolation of the four surrounding grid
values, each read with edge clamping. -/
noncomputable def bilinearSample (g : GrayImage) (y x : ℝ) : ℝ :=
  let y0 : ℤ := ⌊y⌋
  let x0 : ℤ := ⌊x⌋
  let fy : ℝ := y - (y0 : ℝ)
  let fx : ℝ := x - (x0 : ℝ)
  (1 - fy) * (1 - fx) * grayAt g y0 x0 + (1 - fy) * fx * grayAt g y0 (x0 + 1) +
    fy * (1 - fx) * grayAt g (y0 + 1) x0 + fy * fx * grayAt g (y0 + 1) (x0 + 1)

/-- numpy.linspace over the reals: n evenly spaced samples from a to b,
endpoints included; a single sample sits at a. -/
noncomputable def linspace (a b : ℝ) (n : ℕ) : List ℝ :=
  if n = 1 then [a]
  else (List.range n).map fun i : ℕ => a + (b - a) * (i : ℝ) / ((n : ℝ) - 1)

/-- Integer length of a segment, int(np.sqrt(dx^2 + dy^2)) for integer
endpoints: the floor of the square root of an integer, which is Nat.sqrt. -/
def lineLength (p1 p2 : ℤ × ℤ) : ℕ :=
  Nat.sqrt (((p2.1 - p1.1) ^ 2 + (p2.2 - p1.2) ^ 2).toNat)

/-- SpectrumSampler._sample_straight_line: an empty profile for a
zero-length segment; otherwise walk the integer arc-length steps, sample
thickness points along the unit perpendicular at each step by bilinear
interpolation, and take the mean (never the sum) of those samples.  The
input image is already linear RGB; it is reduced to intensity before
sampling, as in the three-channel branch of the source. -/
noncomputable def sampleStraightLine (image : ColorImage) (p1 p2 : ℤ × ℤ)
    (thickness : ℕ) : List ℝ :=
  let length := lineLength p1 p2
  if length = 0 then []
  else
    let t := linspace 0 1 length
    let dx : ℝ := ((p2.1 - p1.1 : ℤ) : ℝ)
    let dy : ℝ := ((p2.2 - p1.2 : ℤ) : ℝ)
    let norm := Real.sqrt (dx ^ 2 + dy ^ 2)
    let perpX := -dy / norm
    let perpY := dx / norm
    let offsets := linspace (-(thickness : ℝ) / 2) ((thickness : ℝ) / 2) thickness
    let intensityImage := rgb_to_intensity image
    t.map fun ti =>
      let xi := (p1.1 : ℝ) + ti * dx
      let yi := (p1.2 : ℝ) + ti * dy
      let samples := offsets.map fun o =>
        bilinearSample intensityImage (yi + o * perpY) (xi + o * perpX)
      samples.sum / samples.length

/-- Loop body of SpectrumSampler._sample_polyline: sample each segment,
concatenate the intensities, and give each segment positions offset by the
cumulative length of the segments before it. -/
noncomputable def samplePolylineAux (image : ColorImage) (thickness : ℕ) :
    List ((ℤ × ℤ) × (ℤ × ℤ)) → ℕ → List ℝ × List ℕ
  | [], _ => ([], [])
  | seg :: rest, cum =>
    let s := sampleStraightLine image seg.1 seg.2 thickness
    let r := samplePolylineAux image thickness rest (cum + s.length)
    (s ++ r.1, (List.range s.length).map (· + cum) ++ r.2)

/-- SpectrumSampler._sample_polyline: consecutive point pairs, sampled and
concatenated with cumulative positions. -/
noncomputable def samplePolyline (image : ColorImage) (pts : List (ℤ × ℤ))
    (thickness : ℕ) : List ℝ × List ℕ :=
  samplePolylineAux image thickness (pts.zip pts.tail) 0

/-- Adjusted window size of the optional smoothing step in
SpectrumSampler.extract_cross_section: the requested window clipped to
the profile length and decremented once when even. -/
def savgolWindowAdj (s : ℤ) (profileLen : ℕ) : ℤ :=
  if min s (profileLen : ℤ) % 2 = 0 then min s (profileLen : ℤ) - 1
  else min s (profileLen : ℤ)

/-- Window-size selection of the optional smoothing step: none when no
smoothing happens, some w when the Savitzky-Golay filter is invoked with
window w.  The request is honoured only when positive, adjusted by
savgolWindowAdj, and the filter runs only when the adjusted window is at
least 3. -/
def savgolWindow (smoothing : Option ℤ) (profileLen : ℕ) : Option ℕ :=
  match smoothing with
  | none => none
  | some s =>
    if 0 < s then
      if 3 ≤ savgolWindowAdj s profileLen then some (savgolWindowAdj s profileLen).toNat
      else none
    else none

/-- Smoothing step of extract_cross_section.  The scipy Savitzky-Golay
filter itself enters as the parameter sg (applied with the selected window
and polynomial order 2): the claims concern only whether it is invoked and
with which window, never its output values. -/
def applySmoothing (sg : List ℝ → ℕ → ℕ → List ℝ) (smoothing : Option ℤ)
    (intensity : List ℝ) : List ℝ :=
  match savgolWindow smoothing intensity.length with
  | some w => sg intensity w 2
  | none => intensity

/-- SpectrumSampler.extract_cross_section: none models the ValueError
raised on fewer than 2 path points; otherwise convert to linear RGB,
sample the straight line (2 points) or the polyline (more), optionally
smooth, and return positions with intensities. -/
noncomputable def extract_cross_section (sg : List ℝ → ℕ → ℕ → List ℝ)
    (image : ColorImage) (linePoints : List (ℤ × ℤ)) (thickness : ℕ)
    (smoothing : Option ℤ) : Option (List ℕ × List ℝ) :=
  if linePoints.length < 2 then none
  else
    let linearRgb := bgr_to_linear_rgb image
    let pr : List ℝ × List ℕ :=
      if linePoints.length = 2 then
        let intensity :=
          sampleStraightLine linearRgb (linePoints.getD 0 (0, 0))
            (linePoints.getD 1 (0, 0)) thickness
        (intensity, List.range intensity.length)
      else samplePolyline linearRgb linePoints thickness
    let intensity := applySmoothing sg smoothing pr.1
    some (pr.2, intensity)

/-- Intensity level shared by every profile sample of a uniform image:
the BT.709 luminance of the gamma-decoded pixel value. -/
noncomputable def uniformLevel (image : ColorImage) : ℝ :=
  (rgb_to_intensity (bgr_to_linear_rgb image)).pix 0 0

/-! ## Automatic line detection (src/core/line_detector.py) -/

/-- LineResult dataclass of the automatic line detector. -/
structure LineResult where
  points : List (ℤ × ℤ)
  confidence : ℚ
  is_curved : Bool
  angle : Option ℚ

/-- AutoLineDetector.detect, abstracted over the results of its two
stages.  The stages _detect_by_brightness and _detect_by_edges are
whole-image processing (Gaussian smoothing, Canny edge detection, Hough
transform) whose internals no claim examines; every image induces one
result per stage, and the dispatch logic of detect on those results is
modelled exactly: return the brightness candidate when its confidence
exceeds 0.5, otherwise return whatever the edge stage produced (none
models the both-stages-failed return of None). -/
def detect (brightResult edgeResult : Option LineResult) : Option LineResult :=
  match brightResult with
  | some r => if 0.5 < r.confidence then some r else edgeResult
  | none => edgeResult

/-! ## Peak detection (src/calibration/peak_detector.py) -/

/-- PeakDetector._refine_peak_position: keep a boundary index unchanged;
at an interior index, refine by 3-point parabolic interpolation, dropping
the refinement when the denominator is within 1e-10 of zero or the offset
magnitude exceeds 1. -/
def refine_peak_position (intensity : List ℚ) (idx : ℕ) : ℚ :=
  if idx = 0 ∨ idx = intensity.length - 1 then idx
  else
    let y1 := intensity.getD (idx - 1) 0
    let y2 := intensity.getD idx 0
    let y3 := intensity.getD (idx + 1) 0
    let denom := 2 * (y1 - 2 * y2 + y3)
    if |denom| < 1 / 10 ^ 10 then idx
    else
      let offset := (y1 - y3) / denom
      if 1 < |offset| then idx else idx + offset

/-- Denominator of the parabolic refinement at an index: twice the second
difference of the three samples around it. -/
def peakDenom (ys : List ℚ) (i : ℕ) : ℚ :=
  2 * (ys.getD (i - 1) 0 - 2 * ys.getD i 0 + ys.getD (i + 1) 0)

/-- Sub-pixel offset of the parabolic refinement at an index. -/
def peakOffset (ys : List ℚ) (i : ℕ) : ℚ :=
  (ys.getD (i - 1) 0 - ys.getD (i + 1) 0) / peakDenom ys i

/-! ## Witness fixtures: concrete states used by the witness theorems -/

/-- Uniform black 8 by 8 image. -/
def wImageC5 : ColorImage :=
  { height := 8, width := 8, pix := fun _ _ => (0, 0, 0) }

/-- Uniform mid-level 4 by 4 image. -/
def wImageC6 : ColorImage :=
  { height := 4, width := 4, pix := fun _ _ => (0.02, 0.02, 0.02) }

/-- A confident straight-line candidate from the brightness stage. -/
def wLineC7 : LineResult :=
  { points := [(0, 0), (5, 0)], confidence := 3 / 4, is_curved := false
    angle := some 0 }

/-- Model holding a single calibration point. -/
def wModelC2 : CalibrationModel :=
  { polynomial_order := 2, points := [⟨100, 500, none⟩], coefficients := none
    fit_quality := none }

/-- Fitted model with one point. -/
def wModelC10 : CalibrationModel :=
  { polynomial_order := 1, points := [⟨0, 1, none⟩], coefficients := some [1, 1]
    fit_quality := none }

/-- Fitted model with two points. -/
def wModelC1 : CalibrationModel :=
  { polynomial_order := 1, points := [⟨0, 1, none⟩, ⟨2, 3, none⟩]
    coefficients := some [1, 1], fit_quality := none }

/-- Unfitted model with two distinct pixel positions sharing one
wavelength: the least-squares line through its points is flat. -/
def mC3 : CalibrationModel :=
  { polynomial_order := 2, points := [⟨0, 5, none⟩, ⟨2, 5, none⟩]
    coefficients := none, fit_quality := none }

/-- Unfitted model with two points of slope 2. -/
def mC3w : CalibrationModel :=
  { polynomial_order := 2, points := [⟨0, 0, none⟩, ⟨2, 4, none⟩]
    coefficients := none, fit_quality := none }

/-- Model holding two points, for requesting an unreachable order. -/
def wModelC4 : CalibrationModel :=
  { polynomial_order := 2, points := [⟨0, 0, none⟩, ⟨2, 4, none⟩]
    coefficients := none, fit_quality := none }

/-! ## Theorems: calibration model -/

/-- With at least 2 points, fit always returns True. -/
theorem fit_fst_true_of_ge_two (m : CalibrationModel) (o : Option ℕ)
    (hl : ¬ m.points.length < 2) : (fit m o).1 = true := by
  simp [fit, hl]

/-- A failed fit leaves the state untouched: the only False return of fit
is the early return guarding fewer than 2 points. -/
theorem fit_failed_state (m : CalibrationModel) (o : Option ℕ)
    (h : (fit m o).1 = false) : fit m o = (false, m) := by
  by_cases hl : m.points.length < 2
  · simp [fit, hl]
  · rw [fit_fst_true_of_ge_two m o hl] at h
    exact absurd h (by simp)

/-- Any operation other than a successful fit preserves the absence of
coefficients. -/
theorem applyOp_coeff_none (m : CalibrationModel) (op : CalOp)
    (h : m.coefficients = none)
    (hfit : ∀ o, op = .fitPoly o → (fit m o).1 = false) :
    (applyOp m op).coefficients = none := by
  cases op with
  | addPt p w l => rfl
  | removePt i =>
      show (remove_point m i).coefficients = none
      unfold remove_point
      split
      · rfl
      · exact h
  | clearPts => rfl
  | fitPoly o =>
      have hs := fit_failed_state m o (hfit o rfl)
      show ((fit m o).2).coefficients = none
      rw [hs]
      exact h

/-- Running any trace of operations along which every fit attempt fails
preserves the absence of coefficients. -/
theorem runOps_coeff_none (ops : List CalOp) :
    ∀ m : CalibrationModel, m.coefficients = none →
      noSuccessfulFit m ops = true → (runOps m ops).coefficients = none := by
  induction ops with
  | nil => exact fun m h _ => h
  | cons op rest ih =>
      intro m h hno
      rw [noSuccessfulFit, Bool.and_eq_true] at hno
      have hop : (applyOp m op).coefficients = none := by
        refine applyOp_coeff_none m op h ?_
        intro o ho
        subst ho
        have hg : (!(fit m o).1) = true := hno.1
        simpa using hg
      exact ih (applyOp m op) hop hno.2

/-- A point mutation (add, in-range remove, clear) erases the
coefficients. -/
theorem mutation_coeff_none (m : CalibrationModel) (op : CalOp)
    (h : isPointMutation m op = true) : (applyOp m op).coefficients = none := by
  cases op with
  | addPt p w l => rfl
  | removePt i =>
      have hi : 0 ≤ i ∧ i < (m.points.length : ℤ) := by
        simpa [isPointMutation] using h
      simp [applyOp, remove_point, hi]
  | clearPts => rfl
  | fitPoly o => simp [isPointMutation] at h

/-- C1: after any successful point mutation (add_point, remove_point of a
valid index, clear_points) the model is unfitted, is_fitted returns false
and pixel_to_wavelength fails, and this persists across any further
operations along which no fit succeeds. -/
theorem C1_mutation_unfits_until_next_fit (m : CalibrationModel) (op : CalOp)
    (ops : List CalOp) (hmut : isPointMutation m op = true)
    (hnofit : noSuccessfulFit (applyOp m op) ops = true) :
    is_fitted (runOps (applyOp m op) ops) = false ∧
    ∀ pixels, pixel_to_wavelength (runOps (applyOp m op) ops) pixels = none := by
  have h0 := mutation_coeff_none m op hmut
  have h1 := runOps_coeff_none ops (applyOp m op) h0 hnofit
  exact ⟨by simp [is_fitted, h1], fun pixels => by simp [pixel_to_wavelength, h1]⟩

/-- Witness for C1: a fitted two-point model, an in-range removal, then a
failed fit attempt; the final state is still unfitted. -/
theorem C1_mutation_unfits_until_next_fit_witness :
    isPointMutation wModelC1 (.removePt 0) = true ∧
    noSuccessfulFit (applyOp wModelC1 (.removePt 0)) [.fitPoly (some 1)] = true ∧
    is_fitted (runOps (applyOp wModelC1 (.removePt 0)) [.fitPoly (some 1)]) = false ∧
    pixel_to_wavelength (runOps (applyOp wModelC1 (.removePt 0)) [.fitPoly (some 1)])
      [3] = none :=
  ⟨by norm_num [isPointMutation, wModelC1],
    by norm_num [noSuccessfulFit, opFitOk, applyOp, remove_point, fit, wModelC1],
    (C1_mutation_unfits_until_next_fit wModelC1 (.removePt 0) [.fitPoly (some 1)]
      (by norm_num [isPointMutation, wModelC1])
      (by norm_num [noSuccessfulFit, opFitOk, applyOp, remove_point, fit, wModelC1])).1,
    (C1_mutation_unfits_until_next_fit wModelC1 (.removePt 0) [.fitPoly (some 1)]
      (by norm_num [isPointMutation, wModelC1])
      (by norm_num [noSuccessfulFit, opFitOk, applyOp, remove_point, fit, wModelC1])).2 [3]⟩

/-- C2: fit on a model with fewer than 2 points returns False and leaves
every field of the state, points, order, coefficients and fit quality,
exactly as before the call. -/
theorem C2_fit_underdetermined (m : CalibrationModel) (o : Option ℕ)
    (h : m.points.length < 2) : fit m o = (false, m) := by
  simp [fit, h]

/-- Witness for C2: a one-point model. -/
theorem C2_fit_underdetermined_witness :
    wModelC2.points.length < 2 ∧ fit wModelC2 none = (false, wModelC2) :=
  ⟨by decide, C2_fit_underdetermined wModelC2 none (by decide)⟩

/-- A successful fit with requested order 1 leaves the stored order at 1:
the downgrade branch cannot fire since success needs at least 2 points. -/
theorem fit_some_one_order (m : CalibrationModel)
    (h : (fit m (some 1)).1 = true) : (fit m (some 1)).2.polynomial_order = 1 := by
  by_cases hl : m.points.length < 2
  · simp [fit, hl] at h
  · have h2 : ¬ m.points.length < 1 + 1 := hl
    simp [fit, hl, h2]

/-- Horner evaluation of a two-coefficient polynomial. -/
theorem polyval_pair (a b x : ℚ) : polyval [a, b] x = a * x + b := by
  simp [polyval]

/-- C3 (amended): for a model successfully fitted with order 1 whose
fitted slope a is nonzero, wavelength_to_pixel inverts
pixel_to_wavelength exactly at every pixel position.  The slope condition
is forced by the counterexample below: a successful order-1 fit over
points with distinct pixels can still be flat. -/
theorem C3_roundtrip_of_nonzero_slope (m : CalibrationModel) (a b : ℚ)
    (hfit : (fit m (some 1)).1 = true)
    (hcoef : (fit m (some 1)).2.coefficients = some [a, b])
    (ha : a ≠ 0) :
    ∀ x : ℚ, roundTrip (fit m (some 1)).2 x = some x := by
  intro x
  have hord := fit_some_one_order m hfit
  have h1 : pixel_to_wavelength (fit m (some 1)).2 [x] = some [a * x + b] := by
    simp [pixel_to_wavelength, hcoef, polyval_pair]
  have h2 : wavelength_to_pixel (fit m (some 1)).2 (a * x + b) = some x := by
    simp only [wavelength_to_pixel, hcoef, hord, if_pos]
    rw [add_sub_cancel_right, mul_div_cancel_left₀ x ha]
  simp [roundTrip, h1, h2]

/-- Witness for C3 (amended): fitting pixels 0 and 2 against wavelengths
0 and 4 gives slope 2, and the round trip returns pixel 7 exactly. -/
theorem C3_roundtrip_of_nonzero_slope_witness :
    (fit mC3w (some 1)).1 = true ∧
    (fit mC3w (some 1)).2.coefficients = some [2, 0] ∧
    (2 : ℚ) ≠ 0 ∧
    roundTrip (fit mC3w (some 1)).2 7 = some 7 :=
  ⟨by norm_num [fit, mC3w], by norm_num [fit, mC3w, polyfit, polyfit1], by norm_num,
    C3_roundtrip_of_nonzero_slope mC3w 2 0 (by norm_num [fit, mC3w])
      (by norm_num [fit, mC3w, polyfit, polyfit1]) (by norm_num) 7⟩

/-- Counterexample to C3 as stated: the model mC3 carries the two points
(pixel 0, wavelength 5) and (pixel 2, wavelength 5), whose pixels are
distinct; fit with order 1 succeeds, with least-squares line 0 * x + 5.
At pixel 1, inside the calibrated range [0, 2], the forward map gives
wavelength 5, but the inverse divides by the zero slope, so the round
trip does not return 1.  In the exact-rational model division by zero
yields 0; the numpy source computes 0.0 / 0.0 = NaN there, which likewise
differs from 1, so the claim fails on the code either way. -/
theorem C3_counterexample :
    (fit mC3 (some 1)).1 = true ∧
    mC3.points.map CalibrationPoint.pixel = [0, 2] ∧
    pixel_to_wavelength (fit mC3 (some 1)).2 [1] = some [5] ∧
    roundTrip (fit mC3 (some 1)).2 1 = some 0 ∧
    roundTrip (fit mC3 (some 1)).2 1 ≠ some 1 := by
  have hc : (fit mC3 (some 1)).2.coefficients = some [0, 5] := by
    norm_num [fit, mC3, polyfit, polyfit1]
  have hord : (fit mC3 (some 1)).2.polynomial_order = 1 := by
    norm_num [fit, mC3]
  have hfwd : pixel_to_wavelength (fit mC3 (some 1)).2 [1] = some [5] := by
    simp [pixel_to_wavelength, hc, polyval]
  have hinv : wavelength_to_pixel (fit mC3 (some 1)).2 5 = some 0 := by
    simp [wavelength_to_pixel, hc, hord]
  refine ⟨by norm_num [fit, mC3], by norm_num [mC3], hfwd, ?_, ?_⟩
  · simp [roundTrip, hfwd, hinv]
  · simp [roundTrip, hfwd, hinv]

/-- C4: fit on n points with a requested order k satisfying n < k + 1
succeeds after silently downgrading the stored order to min(k, n - 1),
and the coefficients are the least-squares fit at the downgraded order. -/
theorem C4_fit_downgrades_order (m : CalibrationModel) (k : ℕ)
    (h2 : 2 ≤ m.points.length) (hk : m.points.length < k + 1) :
    (fit m (some k)).1 = true ∧
    (fit m (some k)).2.polynomial_order = min k (m.points.length - 1) ∧
    (fit m (some k)).2.coefficients =
      some (polyfit ((m.points.map CalibrationPoint.pixel).zip
        (m.points.map CalibrationPoint.wavelength))
        (min k (m.points.length - 1))) := by
  have hn : ¬ m.points.length < 2 := by omega
  simp [fit, hn, hk]

/-- Witness for C4: requesting order 5 on a two-point model downgrades to
order 1 and succeeds. -/
theorem C4_fit_downgrades_order_witness :
    2 ≤ wModelC4.points.length ∧ wModelC4.points.length < 5 + 1 ∧
    (fit wModelC4 (some 5)).1 = true ∧
    (fit wModelC4 (some 5)).2.polynomial_order = min 5 (wModelC4.points.length - 1) :=
  ⟨by decide, by decide,
    (C4_fit_downgrades_order wModelC4 5 (by decide) (by decide)).1,
    (C4_fit_downgrades_order wModelC4 5 (by decide) (by decide)).2.1⟩

/-- C10: remove_point with an index outside [0, point count) is a silent
no-op, returning the state unchanged in every field, so a fitted model
stays fitted. -/
theorem C10_remove_point_out_of_range (m : CalibrationModel) (i : ℤ)
    (h : ¬ (0 ≤ i ∧ i < (m.points.length : ℤ))) :
    remove_point m i = m ∧ is_fitted (remove_point m i) = is_fitted m := by
  have h1 : remove_point m i = m := by simp [remove_point, h]
  exact ⟨h1, by rw [h1]⟩

/-- Witness for C10: removing index -1 from a fitted one-point model
changes nothing and the model stays fitted. -/
theorem C10_remove_point_out_of_range_witness :
    is_fitted wModelC10 = true ∧
    remove_point wModelC10 (-1) = wModelC10 ∧
    is_fitted (remove_point wModelC10 (-1)) = is_fitted wModelC10 :=
  ⟨by decide,
    (C10_remove_point_out_of_range wModelC10 (-1) (by decide)).1,
    (C10_remove_point_out_of_range wModelC10 (-1) (by decide)).2⟩

/-! ## Theorems: spectrum sampler -/

/-- linspace produces exactly n samples. -/
theorem linspace_length (a b : ℝ) (n : ℕ) : (linspace a b n).length = n := by
  by_cases h : n = 1
  · subst h
    simp [linspace]
  · simp [linspace, h]

/-- Smoothing with no requested window returns the profile unchanged. -/
theorem applySmoothing_none (sg : List ℝ → ℕ → ℕ → List ℝ) (xs : List ℝ) :
    applySmoothing sg none xs = xs := rfl

/-- Sum of a constant-valued map. -/
theorem sum_map_const {α : Type} (l : List α) (c : ℝ) :
    (l.map fun _ => c).sum = l.length * c := by
  induction l with
  | nil => simp
  | cons x xs ih => simp [ih]; ring

/-- On a uniform image, the intensity of the gamma-decoded image is the
same at every coordinate, namely uniformLevel. -/
theorem uniform_gray (image : ColorImage)
    (hu : ∀ y x : ℤ, image.pix y x = image.pix 0 0) (y x : ℤ) :
    (rgb_to_intensity (bgr_to_linear_rgb image)).pix y x = uniformLevel image := by
  simp [rgb_to_intensity, bgr_to_linear_rgb, uniformLevel, hu y x]

/-- Bilinear interpolation of a constant-intensity image is that constant,
whatever the sampling coordinates: the four corner weights sum to one. -/
theorem bilinearSample_const (g : GrayImage) (L : ℝ)
    (hg : ∀ y x : ℤ, g.pix y x = L) (y x : ℝ) : bilinearSample g y x = L := by
  unfold bilinearSample grayAt
  simp only [hg]
  ring

/-- Every sample of a straight segment over an image of constant intensity
L is L: the mean over the thickness samples collapses to the common value
as long as at least one perpendicular sample is taken. -/
theorem sampleStraightLine_mem_const (image : ColorImage) (L : ℝ)
    (hg : ∀ y x : ℤ, (rgb_to_intensity image).pix y x = L)
    (p q : ℤ × ℤ) (thickness : ℕ) (ht : 1 ≤ thickness) :
    ∀ a ∈ sampleStraightLine image p q thickness, a = L := by
  intro a ha
  unfold sampleStraightLine at ha
  by_cases h0 : lineLength p q = 0
  · simp [h0] at ha
  · rw [if_neg h0] at ha
    simp only [List.mem_map] at ha
    obtain ⟨ti, _, hval⟩ := ha
    rw [List.map_congr_left fun o _ =>
      bilinearSample_const (rgb_to_intensity image) L hg _ _] at hval
    have hth : (thickness : ℝ) ≠ 0 := Nat.cast_ne_zero.mpr (by omega)
    rw [sum_map_const, List.length_map, linspace_length,
      mul_div_cancel_left₀ L hth] at hval
    exact hval.symm

/-- Every intensity value produced by the polyline loop over segments
whose samples are all L is L. -/
theorem samplePolylineAux_mem_const (image : ColorImage) (thickness : ℕ) (L : ℝ)
    (hseg : ∀ p q : ℤ × ℤ, ∀ a ∈ sampleStraightLine image p q thickness, a = L) :
    ∀ (segs : List ((ℤ × ℤ) × (ℤ × ℤ))) (cum : ℕ) (a : ℝ),
      a ∈ (samplePolylineAux image thickness segs cum).1 → a = L := by
  intro segs
  induction segs with
  | nil => intro cum a ha; simp [samplePolylineAux] at ha
  | cons seg rest ih =>
      intro cum a ha
      rw [samplePolylineAux] at ha
      rcases List.mem_append.mp ha with h | h
      · exact hseg seg.1 seg.2 a h
      · exact ih _ a h

/-- C5: extracting a profile from a uniform-intensity image, along any
path of at least 2 points, with any thickness of at least 1, succeeds and
yields intensities that are all equal (to the luminance of the decoded
pixel value), regardless of the thickness: each step stores the mean,
never the sum, of its thickness samples. -/
theorem C5_uniform_image_flat_profile (sg : List ℝ → ℕ → ℕ → List ℝ)
    (image : ColorImage) (pts : List (ℤ × ℤ)) (thickness : ℕ)
    (h2 : 2 ≤ pts.length) (ht : 1 ≤ thickness)
    (hu : ∀ y x : ℤ, image.pix y x = image.pix 0 0) :
    ∃ pos intens,
      extract_cross_section sg image pts thickness none = some (pos, intens) ∧
      ∀ a ∈ intens, a = uniformLevel image := by
  have hg : ∀ y x : ℤ,
      (rgb_to_intensity (bgr_to_linear_rgb image)).pix y x = uniformLevel image :=
    uniform_gray image hu
  have hseg := sampleStraightLine_mem_const (bgr_to_linear_rgb image)
    (uniformLevel image) hg
  have hlt : ¬ pts.length < 2 := by omega
  by_cases he : pts.length = 2
  · simp only [extract_cross_section, if_neg hlt, if_pos he]
    refine ⟨_, _, rfl, ?_⟩
    intro a ha
    rw [applySmoothing_none] at ha
    exact hseg _ _ thickness ht a ha
  · simp only [extract_cross_section, if_neg hlt, if_neg he]
    refine ⟨_, _, rfl, ?_⟩
    intro a ha
    rw [applySmoothing_none] at ha
    exact samplePolylineAux_mem_const (bgr_to_linear_rgb image) thickness
      (uniformLevel image) (fun p q => hseg p q thickness ht) _ _ a ha

/-- Witness for C5: a uniform black image, a 2-point horizontal path and
thickness 4. -/
theorem C5_uniform_image_flat_profile_witness :
    2 ≤ ([(0, 0), (3, 0)] : List (ℤ × ℤ)).length ∧ 1 ≤ 4 ∧
    ∃ pos intens,
      extract_cross_section (fun xs _ _ => xs) wImageC5 [(0, 0), (3, 0)] 4 none =
        some (pos, intens) ∧
      ∀ a ∈ intens, a = uniformLevel wImageC5 :=
  ⟨by decide, by decide,
    C5_uniform_image_flat_profile (fun xs _ _ => xs) wImageC5 [(0, 0), (3, 0)] 4
      (by decide) (by decide) (fun _ _ => rfl)⟩

/-- C6 (amended): extract_cross_section fails exactly when the path has
fewer than 2 points; zero-length segments do not make it fail. -/
theorem C6_fail_iff_short_path (sg : List ℝ → ℕ → ℕ → List ℝ)
    (image : ColorImage) (pts : List (ℤ × ℤ)) (thickness : ℕ)
    (smoothing : Option ℤ) :
    extract_cross_section sg image pts thickness smoothing = none ↔
      pts.length < 2 := by
  by_cases h : pts.length < 2
  · simp [extract_cross_section, h]
  · simp [extract_cross_section, h]

/-- Counterexample to C6 as stated: a 2-point path whose single segment
has integer length 0 (both endpoints coincide).  The claim predicts a
DegenerateGeometryError, but the source hits the length == 0 early return
of _sample_straight_line and yields an empty profile without raising. -/
theorem C6_counterexample :
    lineLength (0, 0) (0, 0) = 0 ∧
    extract_cross_section (fun xs _ _ => xs) wImageC6 [(0, 0), (0, 0)] 5 none =
      some ([], []) := by
  constructor
  · decide
  · norm_num [extract_cross_section, sampleStraightLine, lineLength,
      applySmoothing, savgolWindow]

/-- C9 (amended): whenever the Savitzky-Golay filter is actually invoked,
its window is odd, at least 3 and at most the profile length, and the
fixed regression degree 2 is at most window - 1.  The counterexample
below shows the filter is skipped, not forced, when the adjusted window
falls below 3. -/
theorem C9_savgol_window_bounds (s : ℤ) (n w : ℕ)
    (h : savgolWindow (some s) n = some w) :
    Odd w ∧ 3 ≤ w ∧ w ≤ n ∧ 2 ≤ w - 1 := by
  rw [savgolWindow] at h
  by_cases hs : 0 < s
  · rw [if_pos hs] at h
    by_cases h3 : 3 ≤ savgolWindowAdj s n
    · rw [if_pos h3, Option.some_inj] at h
      have hodd : savgolWindowAdj s n % 2 = 1 := by
        unfold savgolWindowAdj
        split
        · omega
        · omega
      have hle : savgolWindowAdj s n ≤ (n : ℤ) := by
        unfold savgolWindowAdj
        split <;> omega
      subst h
      refine ⟨Nat.odd_iff.mpr (by omega), by omega, by omega, by omega⟩
    · rw [if_neg h3] at h
      exact absurd h (by simp)
  · rw [if_neg hs] at h
    exact absurd h (by simp)

/-- Witness for C9 (amended): a request of 5 on a profile of length 10
runs the filter with window 5. -/
theorem C9_savgol_window_bounds_witness :
    savgolWindow (some 5) 10 = some 5 ∧
    Odd 5 ∧ 3 ≤ 5 ∧ 5 ≤ 10 ∧ 2 ≤ 5 - 1 :=
  ⟨by decide, C9_savgol_window_bounds 5 10 5 (by decide)⟩

/-- Counterexample to C9 as stated: a positive smoothing window of 2,
requested on a profile of length 10, is clipped to 2, decremented to 1
for oddness, and then smoothing is skipped entirely (no window is forced
up to 3), contradicting the claim that a filter with a valid window is
applied whenever smoothing is requested. -/
theorem C9_counterexample :
    (0 : ℤ) < 2 ∧ 3 ≤ 10 ∧ savgolWindow (some 2) 10 = none := by
  decide

/-! ## Theorems: automatic line detection -/

/-- C7: detect returns the brightness candidate exactly when that stage
produced one with confidence above 0.5; otherwise its value is whatever
the edge stage produced, and when the edge stage also produced nothing
the result is the failure value none. -/
theorem C7_detect_two_stage (rb re : Option LineResult) :
    (∀ r, rb = some r → 0.5 < r.confidence → detect rb re = some r) ∧
    (rb = none → detect rb re = re) ∧
    (∀ r, rb = some r → r.confidence ≤ 0.5 → detect rb re = re) ∧
    (re = none → (rb = none ∨ ∃ r, rb = some r ∧ r.confidence ≤ 0.5) →
      detect rb re = none) := by
  refine ⟨?_, ?_, ?_, ?_⟩
  · intro r hr hc
    subst hr
    simp [detect, hc]
  · intro h
    subst h
    rfl
  · intro r hr hc
    subst hr
    simp [detect, not_lt.mpr hc]
  · rintro he (h | ⟨r, hr, hc⟩)
    · subst h
      subst he
      rfl
    · subst hr
      subst he
      simp [detect, not_lt.mpr hc]

/-- Witness for C7: a brightness candidate of confidence 3/4 is returned
directly, and two failed stages give none. -/
theorem C7_detect_two_stage_witness :
    detect (some wLineC7) none = some wLineC7 ∧ detect none none = none :=
  ⟨(C7_detect_two_stage (some wLineC7) none).1 wLineC7 rfl (by norm_num [wLineC7]),
    (C7_detect_two_stage none none).2.1 rfl⟩

/-! ## Theorems: peak refinement -/

/-- C8: at an interior index, the refined peak position is
i + (y(i-1) - y(i+1)) / (2 (y(i-1) - 2 y(i) + y(i+1))) when the
denominator is not within 1e-10 of zero and the offset magnitude is at
most 1, and the integer index i otherwise; in every case the result is
within 1 of i, and a boundary index is returned unchanged. -/
theorem C8_refine_parabolic (ys : List ℚ) (i : ℕ)
    (h0 : 0 < i) (h1 : i + 1 < ys.length) :
    (¬ |peakDenom ys i| < 1 / 10 ^ 10 → |peakOffset ys i| ≤ 1 →
      refine_peak_position ys i = i + peakOffset ys i) ∧
    (|peakDenom ys i| < 1 / 10 ^ 10 ∨ 1 < |peakOffset ys i| →
      refine_peak_position ys i = i) ∧
    |refine_peak_position ys i - i| ≤ 1 ∧
    (∀ j : ℕ, j = 0 ∨ j = ys.length - 1 → refine_peak_position ys j = j) := by
  have hedge : ¬ (i = 0 ∨ i = ys.length - 1) := by omega
  have hbody : refine_peak_position ys i =
      if |peakDenom ys i| < 1 / 10 ^ 10 then (i : ℚ)
      else if 1 < |peakOffset ys i| then (i : ℚ) else i + peakOffset ys i := by
    rw [refine_peak_position, if_neg hedge]
    rfl
  refine ⟨?_, ?_, ?_, ?_⟩
  · intro hd ho
    rw [hbody, if_neg hd, if_neg (not_lt.mpr ho)]
  · rintro (hd | ho)
    · rw [hbody, if_pos hd]
    · rw [hbody]
      by_cases hd : |peakDenom ys i| < 1 / 10 ^ 10
      · rw [if_pos hd]
      · rw [if_neg hd, if_pos ho]
  · rw [hbody]
    by_cases hd : |peakDenom ys i| < 1 / 10 ^ 10
    · rw [if_pos hd]
      simp
    · rw [if_neg hd]
      by_cases ho : 1 < |peakOffset ys i|
      · rw [if_pos ho]
        simp
      · rw [if_neg ho, add_sub_cancel_left]
        exact not_lt.mp ho
  · intro j hj
    rw [refine_peak_position, if_pos hj]

/-- Witness for C8: profile 0, 1, 0 with the candidate at index 1: the
denominator is -4, the offset 0, and the refined position stays within 1
of the index. -/
theorem C8_refine_parabolic_witness :
    0 < 1 ∧ 1 + 1 < ([0, 1, 0] : List ℚ).length ∧
    ¬ |peakDenom [0, 1, 0] 1| < 1 / 10 ^ 10 ∧ |peakOffset [0, 1, 0] 1| ≤ 1 ∧
    refine_peak_position [0, 1, 0] 1 = 1 + peakOffset [0, 1, 0] 1 ∧
    |refine_peak_position [0, 1, 0] 1 - 1| ≤ 1 :=
  ⟨by decide, by decide, by norm_num [peakDenom], by norm_num [peakOffset, peakDenom],
    (C8_refine_parabolic [0, 1, 0] 1 (by decide) (by decide)).1
      (by norm_num [peakDenom]) (by norm_num [peakOffset, peakDenom]),
    (C8_refine_parabolic [0, 1, 0] 1 (by decide) (by decide)).2.2.1⟩

end Spectrometer
